import Mathlib

/-!
Verification of the skill-activation decision engine of this repository.

The primary implementation is the Node hook (`skill-activation-prompt`,
`loadSkillRules` / `matchesFilePattern` / `containsKeywords` / `matchesIntent` /
`analyzePrompt` / `formatMessage` / `main`).  A second, divergent TypeScript
hook implements the same pipeline with plain-substring keyword matching, a
two-location rule loader and exit code 1 on caught errors; it is embedded
separately (definitions prefixed `ts`).

Strings are modelled as `List Char` (`Str`).  the JavaScript `toLowerCase` is
modelled by `Char.toLower` per character (faithful on ASCII, which is all the
rule data uses).  Regular expressions only ever arise from two fixed shapes in
the source — the glob-to-regex compiler of `matchesFilePattern`, and the
`\b<keyword>\b` whole-word test of `containsKeywords` — and both are embedded
as executable matchers below.
-/

/-- Strings are modelled as lists of characters. -/
abbrev Str := List Char

/-- Coerce a Lean string literal to the `Str` model. -/
def strL (s : String) : Str := s.data

/-- JavaScript `String.prototype.toLowerCase`, per character (ASCII-faithful). -/
def lowerL (s : Str) : Str := s.map Char.toLower

/- ------------------------------------------------------------------
   The glob-to-regex compiler of `matchesFilePattern` (part_001, lines 33-47):

     const regexPattern = pattern
       .replace(/\./g, "\\.")
       .replace(/\*\*/g, ".*")
       .replace(/\*/g, "[^/]*")
       .replace(/\?/g, ".");
     const regex = new RegExp(`^${regexPattern}$`);
     return regex.test(filePath);

   The four chained global replacements are embedded one-for-one; note the
   third replacement also rewrites the `*` introduced by the second.
   ------------------------------------------------------------------ -/

/-- Embeds `.replace(/\./g, "\\.")` : escape every dot. -/
def escDots : Str → Str
  | [] => []
  | c :: rest => if c = '.' then '\\' :: '.' :: escDots rest else c :: escDots rest

/-- Embeds `.replace(/\*\*/g, ".*")` : left-to-right, non-overlapping
replacement of `**` by `.*`. -/
def replDStar : Str → Str
  | [] => []
  | [c] => [c]
  | c :: d :: rest =>
    if c = '*' ∧ d = '*' then '.' :: '*' :: replDStar rest
    else c :: replDStar (d :: rest)

/-- Embeds `.replace(/\*/g, "[^/]*")` : replace every remaining `*` by `[^/]*`. -/
def replStar : Str → Str
  | [] => []
  | c :: rest =>
    if c = '*' then '[' :: '^' :: '/' :: ']' :: '*' :: replStar rest
    else c :: replStar rest

/-- Embeds `.replace(/\?/g, ".")` : replace every `?` by `.`. -/
def replQ : Str → Str
  | [] => []
  | c :: rest => if c = '?' then '.' :: replQ rest else c :: replQ rest

/-- The full glob-to-regex source compilation chain. -/
def compilePattern (pattern : Str) : Str :=
  replQ (replStar (replDStar (escDots pattern)))

/-- Atoms of the regexes produced by `compilePattern`: a literal character, the
metacharacter `.`, or the character class `[^/]`. -/
inductive Atom where
  | lit (c : Char)
  | dot
  | notSlash
deriving DecidableEq

/-- JavaScript line terminators, which `.` does not match. -/
def isLineTerm (c : Char) : Bool :=
  c == '\n' || c == '\r' || c == Char.ofNat 0x2028 || c == Char.ofNat 0x2029

/-- One regex atom against one character (the compiled regex carries no `i`
flag, so literals are case-sensitive). -/
def matchAtom : Atom → Char → Bool
  | Atom.lit c, d => c == d
  | Atom.dot, d => !(isLineTerm d)
  | Atom.notSlash, d => !(d == '/')

/-- Characters that are metacharacters of a JavaScript regex.  A pattern
character outside this set passes through `compilePattern` as a literal.
Raw metacharacters other than the glob characters are not produced by the
compiler from the glob alphabet and are rejected by the parser below. -/
def isMeta (c : Char) : Bool :=
  c == '\\' || c == '[' || c == ']' || c == '^' || c == '$' || c == '.' ||
  c == '*' || c == '+' || c == '?' || c == '(' || c == ')' ||
  c == '\x7b' || c == '\x7d' || c == '|'

/-- Read one atom off the front of a regex string produced by
`compilePattern`: an escape `\c`, the class `[^/]`, the metacharacter `.`,
or a plain literal.  Only the constructs the compiler emits are accepted;
anything else (a raw metacharacter) yields `none`. -/
def chopAtom : Str → Option (Atom × Str)
  | [] => none
  | c :: rest =>
    if c = '\\' then
      match rest with
      | [] => none
      | d :: rest2 => some (Atom.lit d, rest2)
    else if c = '[' then
      match rest with
      | '^' :: '/' :: ']' :: rest2 => some (Atom.notSlash, rest2)
      | _ => none
    else if c = '.' then some (Atom.dot, rest)
    else if isMeta c then none
    else some (Atom.lit c, rest)

/-- Parse a regex string into atoms, each optionally followed by a postfix
`*`.  Fuelled so that the recursion is structural; `chopAtom` consumes at
least one character, so fuel equal to the string length always suffices
(see `parseAtomsF_fuel`). -/
def parseAtomsF : Nat → Str → Option (List (Atom × Bool))
  | _, [] => some []
  | 0, _ :: _ => none
  | fuel + 1, c :: s2 =>
    match chopAtom (c :: s2) with
    | none => none
    | some (a, rest) =>
      match rest with
      | '*' :: rest2 => (parseAtomsF fuel rest2).map (fun l => (a, true) :: l)
      | _ => (parseAtomsF fuel rest).map (fun l => (a, false) :: l)

/-- Parse a regex string produced by `compilePattern` into a sequence of
optionally starred atoms. -/
def parseAtoms (s : Str) : Option (List (Atom × Bool)) := parseAtomsF s.length s

/-- All suffixes of `s` reachable by deleting a (possibly empty) prefix of
characters each matching atom `a`; these are exactly the remainders a starred
atom `a*` can leave behind. -/
def stripRun (a : Atom) : Str → List Str
  | [] => [[]]
  | c :: s => (c :: s) :: (if matchAtom a c then stripRun a s else [])

/-- Anchored matching of an atom sequence against a whole string: the
existential semantics of `^...$` regex `test` on the shapes emitted by
`compilePattern` (a starred single-character atom matches by consuming any
run of matching characters). -/
def matchItems : List (Atom × Bool) → Str → Bool
  | [], s => s.isEmpty
  | (_, false) :: _, [] => false
  | (a, false) :: items, c :: s => matchAtom a c && matchItems items s
  | (a, true) :: items, s => (stripRun a s).any (fun s2 => matchItems items s2)

/-- Embeds `matchesFilePattern(filePath, patterns)` (part_001, lines 33-47).
`patterns` is optional in the source (`!patterns || patterns.length === 0`). -/
def matchesFilePattern (filePath : Str) (patterns : Option (List Str)) : Bool :=
  match patterns with
  | none => false
  | some ps =>
    if ps.length = 0 then false
    else ps.any (fun pattern =>
      match parseAtoms (compilePattern pattern) with
      | some items => matchItems items filePath
      | none => false)

/- ------------------------------------------------------------------
   `containsKeywords(text, keywords)` (part_001, lines 50-60):

     if (!keywords || keywords.length === 0) return false;
     const lowerText = text.toLowerCase();
     return keywords.some((keyword) => {
       const lowerKeyword = keyword.toLowerCase();
       const regex = new RegExp(`\\b${lowerKeyword}\\b`, "i");
       return regex.test(lowerText);
     });

   The interpolated regex is `\b<keyword>\b`; for keywords free of regex
   metacharacters (all rule keywords are plain words) this is the literal
   keyword anchored on both sides by JavaScript word boundaries, where `\b`
   holds between two positions iff exactly one of the adjacent characters is
   a word character (`[A-Za-z0-9_]`, with the edges of the string counting
   as non-word).  `scanWord` below scans every position of the text for
   such an occurrence, which is exactly what `regex.test` does.
   ------------------------------------------------------------------ -/

/-- JavaScript `\w` word characters, `[A-Za-z0-9_]`. -/
def isWordChar (c : Char) : Bool := c.isAlphanum || c == '_'

/-- Wordness of an optional character; the edge of the string counts as
non-word. -/
def isWordCharO : Option Char → Bool
  | none => false
  | some c => isWordChar c

/-- The JavaScript `\b` assertion between a left and a right character
(`none` at either edge of the string). -/
def bdryB (a b : Option Char) : Bool := isWordCharO a != isWordCharO b

/-- Does the literal word `kw` match at the head of `s`, with word boundaries
on both sides?  `prev` is the character just before this position in the
enclosing text. -/
def hitAt (kw : Str) (prev : Option Char) (s : Str) : Bool :=
  List.isPrefixOf kw s && bdryB prev s.head? &&
    bdryB (s.take kw.length).getLast? (s.drop kw.length).head?

/-- Embeds `regex.test` for the regex `\b<kw>\b`: try `hitAt` at every position of
the text, threading the previous character. -/
def scanWord (kw : Str) : Option Char → Str → Bool
  | prev, [] => hitAt kw prev []
  | prev, c :: rest => hitAt kw prev (c :: rest) || scanWord kw (some c) rest

/-- Embeds `containsKeywords(text, keywords)` (part_001, lines 50-60).  Both the text
and each keyword are lowercased; the `i` flag is then redundant. -/
def containsKeywords (text : Str) (keywords : Option (List Str)) : Bool :=
  match keywords with
  | none => false
  | some kws =>
    if kws.length = 0 then false
    else kws.any (fun keyword => scanWord (lowerL keyword) none (lowerL text))

/-- JavaScript `String.prototype.includes`: does `needle` occur contiguously
anywhere in the haystack? -/
def isSubstr (needle : Str) : Str → Bool
  | [] => needle.isEmpty
  | c :: rest => List.isPrefixOf needle (c :: rest) || isSubstr needle rest

/-- Embeds `matchesIntent(text, patterns)` (part_001, lines 63-71): case-insensitive
substring containment (`lowerText.includes(lowerPattern)`). -/
def matchesIntent (text : Str) (patterns : Option (List Str)) : Bool :=
  match patterns with
  | none => false
  | some ps =>
    if ps.length = 0 then false
    else ps.any (fun pattern => isSubstr (lowerL pattern) (lowerL text))

/-- Declarative whole-word occurrence: `kw` occurs somewhere in `s` with a
word boundary on each side. -/
def occursWholeWord (kw s : Str) : Prop :=
  ∃ pre post, s = pre ++ kw ++ post ∧
    bdryB pre.getLast? kw.head? = true ∧ bdryB kw.getLast? post.head? = true

/-- The character just before the current scan position: the last character
of `pre` if any, else the character `prev` carried in from further left. -/
def lastOr (prev : Option Char) : Str → Option Char
  | [] => prev
  | c :: rest => lastOr (some c) rest

/-- Whole-word occurrence relative to a scan state (`prev` = character just
left of the remaining text `s`). -/
def occursAux (kw : Str) (prev : Option Char) (s : Str) : Prop :=
  ∃ pre post, s = pre ++ kw ++ post ∧
    bdryB (lastOr prev pre) kw.head? = true ∧ bdryB kw.getLast? post.head? = true

/-- The keyword check of the TypeScript hook (skill-activation-prompt.ts, lines
70-73): plain substring containment of the lowercased keyword in the already
lowercased prompt — `prompt.includes(kw.toLowerCase())`. -/
def tsKeywordHit (prompt : Str) (keywords : List Str) : Bool :=
  keywords.any (fun kw => isSubstr (lowerL kw) prompt)

/- ------------------------------------------------------------------
   Data model of the rule collection consumed by part_001 (`skill-rules.json`:
   `{ skills: [ { name, description, mode, priority, triggers? } ] }` where
   `triggers` may carry `keywords`, `intentPatterns`, `filePatterns`,
   `excludePatterns`, each optional).
   ------------------------------------------------------------------ -/

/-- The `triggers` object of one rule; every field is optional in the JSON. -/
structure Triggers where
  keywords : Option (List Str)
  intentPatterns : Option (List Str)
  filePatterns : Option (List Str)
  excludePatterns : Option (List Str)
deriving DecidableEq

/-- One skill rule.  `triggers` itself is optional (`skill.triggers?.` in the
source). -/
structure Skill where
  name : Str
  description : Str
  mode : Str
  priority : Str
  triggers : Option Triggers
deriving DecidableEq

/-- Reads `skill.triggers?.keywords`. -/
def kwsOf (s : Skill) : Option (List Str) := s.triggers.bind Triggers.keywords

/-- Reads `skill.triggers?.intentPatterns`. -/
def intsOf (s : Skill) : Option (List Str) := s.triggers.bind Triggers.intentPatterns

/-- Reads `skill.triggers?.filePatterns`. -/
def fpsOf (s : Skill) : Option (List Str) := s.triggers.bind Triggers.filePatterns

/-- Reads `skill.triggers.excludePatterns` (only read under `filePatterns`). -/
def epsOf (s : Skill) : Option (List Str) := s.triggers.bind Triggers.excludePatterns

/-- Reason string `"keyword match"`. -/
def kwReason : Str := strL "keyword match"

/-- Reason string `"intent match"`. -/
def intReason : Str := strL "intent match"

/-- Reason string `` `file context (${n} files)` ``. -/
def fileReason (n : Nat) : Str := strL "file context (" ++ strL (Nat.repr n) ++ strL " files)"

/-- Reason string `"excluded by pattern"`. -/
def exclReason : Str := strL "excluded by pattern"

/-- The per-rule body of the `analyzePrompt` loop (part_001, lines 79-121):
returns the accumulated `score` and `matchReasons` for one skill.  The
presence guards `if (skill.triggers?.keywords)` etc. are absorbed into the
matchers, which return `false` for an absent or empty list exactly as the
guarded call does. -/
def ruleScore (skill : Skill) (prompt : Str) (contextFiles : List Str) : Nat × List Str :=
  let kwHit := containsKeywords prompt (kwsOf skill)
  let score1 : Nat := if kwHit then 2 else 0
  let reasons1 : List Str := if kwHit then [kwReason] else []
  let intHit := matchesIntent prompt (intsOf skill)
  let score2 := score1 + (if intHit then 3 else 0)
  let reasons2 := reasons1 ++ (if intHit then [intReason] else [])
  match fpsOf skill with
  | none => (score2, reasons2)
  | some fps =>
    if contextFiles.length > 0 then
      let matchingFiles := contextFiles.filter (fun file => matchesFilePattern file (some fps))
      if matchingFiles.length > 0 then
        let score3 := score2 + 2
        let reasons3 := reasons2 ++ [fileReason matchingFiles.length]
        match epsOf skill with
        | none => (score3, reasons3)
        | some eps =>
          let excludedFiles := matchingFiles.filter (fun file => matchesFilePattern file (some eps))
          if excludedFiles.length = matchingFiles.length then ((0 : Nat), [exclReason])
          else (score3, reasons3)
      else (score2, reasons2)
    else (score2, reasons2)

/-- One entry of the `suggestions` / `blockingSkills` arrays (part_001, lines
125-132). -/
structure Suggestion where
  skillName : Str
  description : Str
  mode : Str
  priority : Str
  score : Nat
  reasons : List Str
deriving DecidableEq

/-- The suggestion record pushed for a matched skill. -/
def mkSuggestion (skill : Skill) (r : Nat × List Str) : Suggestion :=
  ⟨skill.name, skill.description, skill.mode, skill.priority, r.1, r.2⟩

/-- The partition loop of `analyzePrompt` (part_001, lines 123-140): one pass
over the rules, pushing each matched rule (score > 0) into exactly one of the
two buckets (`suggestions`, `blockingSkills`), in declaration order. -/
def buckets (prompt : Str) (contextFiles : List Str) : List Skill → List Suggestion × List Suggestion
  | [] => ([], [])
  | skill :: rest =>
    let r := ruleScore skill prompt contextFiles
    let acc := buckets prompt contextFiles rest
    if r.1 > 0 then
      if skill.mode == strL "block" then (acc.1, mkSuggestion skill r :: acc.2)
      else (mkSuggestion skill r :: acc.1, acc.2)
    else acc

/-- Stable insertion of `x` into a list already sorted by score descending:
`x` goes before the first entry whose score is not larger, so earlier rules
stay ahead of later rules with equal score. -/
def insertDesc (x : Suggestion) : List Suggestion → List Suggestion
  | [] => [x]
  | y :: ys => if y.score > x.score then y :: insertDesc x ys else x :: y :: ys

/-- Embeds `suggestions.sort((a, b) => b.score - a.score)` (part_001, line 143):
the JavaScript sort is stable (ES2019), and for the total preorder given by
this comparator the stable sorted order is unique, so a stable insertion
sort computes exactly it. -/
def sortDesc : List Suggestion → List Suggestion
  | [] => []
  | x :: xs => insertDesc x (sortDesc xs)

/-- Embeds `analyzePrompt(prompt, contextFiles)` (part_001, lines 74-146), with the
rule collection passed explicitly (the source obtains it from
`loadSkillRules()`; see `analyzePromptLoaded`).  Returns
`{ suggestions, blockingSkills }`. -/
def analyzePrompt (skills : List Skill) (prompt : Str) (contextFiles : List Str) :
    List Suggestion × List Suggestion :=
  let b := buckets prompt contextFiles skills
  (sortDesc b.1, b.2)

/-- The parsed shape of `skill-rules.json`; `skills` may be absent
(`rules.skills || []`). -/
structure SkillRulesFile where
  skills : Option (List Skill)
deriving DecidableEq

/-- Embeds `loadSkillRules()` (part_001, lines 16-30), with the file system abstracted
to whether the single candidate path exists and what reading-plus-parsing it
yields.  A missing file or a parse failure both yield `{ skills: [] }`;
nothing is thrown. -/
def loadSkillRules (fileExists : Bool) (parsed : Except Str SkillRulesFile) : SkillRulesFile :=
  if fileExists then
    match parsed with
    | Except.ok r => r
    | Except.error _ => ⟨some []⟩
  else ⟨some []⟩

/-- Runs `analyzePrompt` as actually invoked: rules come from `loadSkillRules`, and
the loop iterates `rules.skills || []`. -/
def analyzePromptLoaded (fileExists : Bool) (parsed : Except Str SkillRulesFile)
    (prompt : Str) (contextFiles : List Str) : List Suggestion × List Suggestion :=
  analyzePrompt ((loadSkillRules fileExists parsed).skills.getD []) prompt contextFiles

/-- Embeds `skill.reasons.join(", ")`. -/
def joinComma (rs : List Str) : Str := List.intercalate (strL ", ") rs

/-- JavaScript whitespace trimmed by `String.prototype.trim` (the characters
relevant to the produced messages). -/
def isTrimWS (c : Char) : Bool := c == ' ' || c == '\n' || c == '\t' || c == '\r'

/-- Embeds `message.trim()`. -/
def trimL (s : Str) : Str :=
  ((s.dropWhile isTrimWS).reverse.dropWhile isTrimWS).reverse

/-- Embeds `formatMessage(analysis)` (part_001, lines 149-186).  Returns `null` when
both buckets are empty; otherwise builds the message text.  Note the guard on
the suggestion section: it renders only when `suggestions.length <= 3`, which
makes the `slice(0, 3)` inside it dead code. -/
def formatMessage (analysis : List Suggestion × List Suggestion) : Option Str :=
  let suggestions := analysis.1
  let blockingSkills := analysis.2
  if blockingSkills.length = 0 ∧ suggestions.length = 0 then none
  else
    let m1 : Str :=
      if blockingSkills.length > 0 then
        strL "⛔ **SKILL REQUIRED BEFORE PROCEEDING**\n\n" ++
        (blockingSkills.foldl (fun acc skill =>
          acc ++ strL "**" ++ skill.skillName ++ strL "**\n" ++
          skill.description ++ strL "\n" ++
          strL "Reason: " ++ joinComma skill.reasons ++ strL "\n\n" ++
          strL "Use: `/skill " ++ skill.skillName ++ strL "` before making changes.\n\n") []) ++
        strL "---\n\n"
      else []
    let m2 : Str :=
      if suggestions.length > 0 ∧ suggestions.length ≤ 3 then
        strL "💡 **Suggested Skills** (based on your prompt and context):\n\n" ++
        ((suggestions.take 3).foldl (fun acc skill =>
          acc ++ strL "• **" ++ skill.skillName ++ strL "** — " ++ skill.description ++ strL "\n" ++
          strL "  Match: " ++ joinComma skill.reasons ++ strL "\n" ++
          strL "  Use: `/skill " ++ skill.skillName ++ strL "`\n\n") [])
      else []
    some (trimL (m1 ++ m2))

/-- The JSON read from stdin, as far as `main` inspects it: `input.prompt`,
`input.files`, `input.context_files` (each possibly absent). -/
structure HookInput where
  prompt : Option Str
  files : Option (List Str)
  context_files : Option (List Str)

/-- Observable outcome of one hook invocation: what was printed to stdout,
what was logged to stderr, and the process exit code. -/
structure MainResult where
  output : Option Str
  errLog : Option Str
  exit : Nat
deriving DecidableEq

/-- The body of `main()` after a successful stdin read (part_001, lines
216-236): extract `prompt` (`input.prompt || ""`) and the context files
(`input.files || input.context_files || []`), exit 0 silently when the prompt
is empty — before the rule collection is even loaded — and otherwise analyze,
format, and print the message only when it is non-null and non-empty.
`fileExists`/`parsed` abstract the rule-file read made inside
`loadSkillRules`; the stderr log of a parse failure is surfaced in `errLog`. -/
def mainRun (fileExists : Bool) (parsed : Except Str SkillRulesFile)
    (input : HookInput) : MainResult :=
  let userPrompt := input.prompt.getD []
  let contextFiles :=
    match input.files with
    | some fs => fs
    | none =>
      match input.context_files with
      | some cs => cs
      | none => []
  if userPrompt.length = 0 then ⟨none, none, 0⟩
  else
    let loadLog : Option Str :=
      if fileExists then
        match parsed with
        | Except.error e => some (strL "Error loading skill-rules.json: " ++ e)
        | Except.ok _ => none
      else none
    let analysis := analyzePromptLoaded fileExists parsed userPrompt contextFiles
    match formatMessage analysis with
    | none => ⟨none, loadLog, 0⟩
    | some m => if m.length = 0 then ⟨none, loadLog, 0⟩ else ⟨some m, loadLog, 0⟩

/-- The outermost `try/catch` of `main()` (part_001, lines 213-241): a
successful run is returned as is; any thrown error is logged as
`Hook error: ...` to stderr and the process still exits 0. -/
def mainBoundary (r : Except Str MainResult) : MainResult :=
  match r with
  | Except.ok m => m
  | Except.error e => ⟨none, some (strL "Hook error: " ++ e), 0⟩

/- ------------------------------------------------------------------
   The TypeScript hook (src/hooks/skill-activation-prompt.ts).

   Its matching loop keeps only skills whose `promptTriggers` match the
   lowercased prompt: keyword hit = plain substring containment; intent hit =
   `new RegExp(pattern, "i").test(prompt)`, abstracted here as a parameter
   `rt` (the pipeline never inspects it elsewhere).  `Object.entries` of the
   `skills` record is modelled as an association list in insertion order.
   ------------------------------------------------------------------ -/

/-- The `promptTriggers` object of the TypeScript schema. -/
structure TsTriggers where
  keywords : Option (List Str)
  intentPatterns : Option (List Str)
deriving DecidableEq

/-- One TypeScript skill rule; `type` and `priority` are never read by the
hook logic and are omitted. -/
structure TsSkillRule where
  enforcement : Str
  promptTriggers : Option TsTriggers
deriving DecidableEq

/-- One entry of `matchedSkills`. -/
structure TsMatched where
  name : Str
  matchType : Str
  config : TsSkillRule
deriving DecidableEq

/-- The matching loop (skill-activation-prompt.ts, lines 63-90): keyword match
pushes and `continue`s; otherwise an intent match pushes; a skill without
`promptTriggers` is skipped.  `rt pattern prompt` stands for
`new RegExp(pattern, "i").test(prompt)`. -/
def tsMatchedSkills (rt : Str → Str → Bool) (prompt : Str) :
    List (Str × TsSkillRule) → List TsMatched
  | [] => []
  | (skillName, config) :: rest =>
    match config.promptTriggers with
    | none => tsMatchedSkills rt prompt rest
    | some triggers =>
      let kwHit :=
        match triggers.keywords with
        | some kws => tsKeywordHit prompt kws
        | none => false
      if kwHit then ⟨skillName, strL "keyword", config⟩ :: tsMatchedSkills rt prompt rest
      else
        let intentHit :=
          match triggers.intentPatterns with
          | some ps => ps.any (fun pattern => rt pattern prompt)
          | none => false
        if intentHit then ⟨skillName, strL "intent", config⟩ :: tsMatchedSkills rt prompt rest
        else tsMatchedSkills rt prompt rest

/-- The parsed `skill-rules.json` of the TypeScript schema (the `version`
field is never read). -/
structure TsRules where
  skills : List (Str × TsSkillRule)
deriving DecidableEq

/-- The file system as the TypeScript hook sees it: whether
`CLAUDE_PROJECT_DIR` is set, whether the project-scoped rules file exists,
and what reading-plus-JSON-parsing yields at the chosen path (`true` =
project path, `false` = global path); an `error` models the exception thrown
by `readFileSync`/`JSON.parse`. -/
structure TsFs where
  projectDirSet : Bool
  projectFileExists : Bool
  readParse : Bool → Except Str TsRules

/-- The blocking banner printed to stdout (skill-activation-prompt.ts, lines
96-108). -/
def tsRenderBlocking (blocking : List TsMatched) : Str :=
  let line := strL "━━━━━━━━━━━━━━━━━━━━━━━━━━━━━━━━━━━━━━━\n"
  line ++ strL "🎯 SKILL ACTIVATION REQUIRED\n" ++ line ++ strL "\n" ++
  strL "⚠️ REQUIRED SKILLS (must use before proceeding):\n" ++
  (blocking.foldl (fun acc s => acc ++ strL "  → " ++ s.name ++ strL "\n") []) ++
  strL "\n" ++
  strL "ACTION: Use Skill tool with the above skill(s) BEFORE responding\n" ++ line

/-- The body of the TypeScript `main()` up to its `process.exit(0)`
(skill-activation-prompt.ts, lines 38-118), as an `Except` pipeline:
stdin-parse failure, `data.prompt` being absent (`undefined.toLowerCase()`
throws a `TypeError`), and a failed read/parse of the chosen rules file are
the thrown errors.  On success it yields the stdout payload (the blocking
banner, if any) and the stderr debug line (suggested skills, if any). -/
def tsPipeline (rt : Str → Str → Bool) (inputParse : Except Str (Option Str)) (fs : TsFs) :
    Except Str (Option Str × Option Str) :=
  match inputParse with
  | Except.error e => Except.error e
  | Except.ok dataPrompt =>
    match dataPrompt with
    | none => Except.error (strL "TypeError: data.prompt is undefined")
    | some p =>
      let prompt := lowerL p
      let useProject := fs.projectDirSet && fs.projectFileExists
      match fs.readParse useProject with
      | Except.error e => Except.error e
      | Except.ok rules =>
        let matched := tsMatchedSkills rt prompt rules.skills
        let blocking := matched.filter (fun s => s.config.enforcement == strL "block")
        let out : Option Str :=
          if blocking.length > 0 then some (tsRenderBlocking blocking) else none
        let suggested := matched.filter (fun s => !(s.config.enforcement == strL "block"))
        let dbg : Option Str :=
          if suggested.length > 0 then
            some (strL "[DEBUG] Suggested skills: " ++ joinComma (suggested.map TsMatched.name))
          else none
        Except.ok (out, dbg)

/-- The TypeScript `main()` with its `catch` (lines 119-122): a successful
pipeline exits 0; any caught error is logged to stderr and the process exits
with code **1** (`process.exit(1)`). -/
def tsMain (rt : Str → Str → Bool) (inputParse : Except Str (Option Str)) (fs : TsFs) :
    MainResult :=
  match tsPipeline rt inputParse fs with
  | Except.ok (out, dbg) => ⟨out, dbg, 0⟩
  | Except.error e =>
    ⟨none, some (strL "Error in skill-activation-prompt hook: " ++ e), 1⟩

/-- Does the keyword trigger of the rule hit this prompt? -/
def kwHitB (skill : Skill) (prompt : Str) : Bool := containsKeywords prompt (kwsOf skill)

/-- Does the intent trigger of the rule hit this prompt? -/
def intentHitB (skill : Skill) (prompt : Str) : Bool := matchesIntent prompt (intsOf skill)

/-- The context files matching the `filePatterns` of the rule (empty when the rule
has none). -/
def matchingOf (skill : Skill) (ctx : List Str) : List Str :=
  ctx.filter (fun file => matchesFilePattern file (fpsOf skill))

/-- Does the file trigger of the rule hit this context? -/
def fileHitB (skill : Skill) (ctx : List Str) : Bool := !(matchingOf skill ctx).isEmpty

/-- Does the exclusion override fire: the rule has `excludePatterns`, some
context file matches `filePatterns`, and every matching file also matches an
exclude pattern? -/
def exclusionFiresB (skill : Skill) (ctx : List Str) : Bool :=
  match epsOf skill with
  | none => false
  | some eps =>
    let m := matchingOf skill ctx
    !m.isEmpty && ((m.filter (fun file => matchesFilePattern file (some eps))).length == m.length)

/-- Rebuilds `skill` with its `excludePatterns` replaced (when it has a `triggers`
object at all). -/
def setExclude (skill : Skill) (eps : Option (List Str)) : Skill :=
  { skill with triggers := skill.triggers.map (fun t => { t with excludePatterns := eps }) }

/-- The per-rule results with positive score, in declaration order: each rule
contributes at most one entry. -/
def matchedList (prompt : Str) (ctx : List Str) (skills : List Skill) : List Suggestion :=
  skills.filterMap (fun skill =>
    let r := ruleScore skill prompt ctx
    if r.1 > 0 then some (mkSuggestion skill r) else none)

/-- A demo rule for exercising the resolver: keyword-triggered, suggest-mode. -/
def c1Rule (nm kw : String) : Skill :=
  ⟨strL nm, strL "demo", strL "suggest", strL "low", some ⟨some [strL kw], none, none, none⟩⟩

/-- Four suggest-mode rules all hit by `c1Prompt`. -/
def c1Rules4 : List Skill :=
  [c1Rule "s1" "alpha", c1Rule "s2" "bravo", c1Rule "s3" "charlie", c1Rule "s4" "delta"]

/-- The first three of `c1Rules4`. -/
def c1Rules3 : List Skill := [c1Rule "s1" "alpha", c1Rule "s2" "bravo", c1Rule "s3" "charlie"]

/-- A prompt hitting all four demo rules. -/
def c1Prompt : Str := strL "alpha bravo charlie delta"

theorem matchItems_nil (s : Str) : matchItems [] s = s.isEmpty := by
  cases s <;> rfl

theorem anyStrip_notSlash : ∀ p : Str,
    ((stripRun Atom.notSlash p).any fun s2 => List.isEmpty s2) = p.all (fun c => !(c == '/'))
  | [] => rfl
  | c :: rest => by
    by_cases hc : c = '/'
    · subst hc; simp [stripRun, matchAtom]
    · have hb : (c == '/') = false := beq_eq_false_iff_ne.mpr hc
      simp [stripRun, matchAtom, hb, anyStrip_notSlash rest]

theorem matchItems_notSlashStar (p : Str) :
    matchItems [(Atom.notSlash, true)] p = p.all (fun c => !(c == '/')) := by
  have e : matchItems [(Atom.notSlash, true)] p =
      ((stripRun Atom.notSlash p).any fun s2 => matchItems [] s2) := rfl
  rw [e]
  simp only [matchItems_nil]
  exact anyStrip_notSlash p

theorem matchItems_dotNotSlashStar (p : Str) :
    matchItems [(Atom.dot, false), (Atom.notSlash, true)] p =
      (match p with
       | [] => false
       | c :: rest => !(isLineTerm c) && rest.all (fun c => !(c == '/'))) := by
  cases p with
  | nil => rfl
  | cons c rest => simp [matchItems, matchAtom, anyStrip_notSlash]

theorem matchItems_dotOnce (p : Str) :
    matchItems [(Atom.dot, false)] p =
      (match p with
       | [c] => !(isLineTerm c)
       | _ => false) := by
  match p with
  | [] => rfl
  | [c] => simp [matchItems, matchAtom, matchItems_nil]
  | c :: d :: rest => simp [matchItems, matchAtom, matchItems_nil]

theorem matchItems_lits (pat : Str) : ∀ path : Str,
    (matchItems (pat.map (fun c => (Atom.lit c, false))) path = true ↔ path = pat) := by
  induction pat with
  | nil =>
    intro path
    cases path <;> simp [matchItems]
  | cons c pr ih =>
    intro path
    cases path with
    | nil => simp [matchItems]
    | cons d pd =>
      simp [matchItems, matchAtom, ih pd, eq_comm (a := c) (b := d), and_comm]

theorem chopAtom_length {s : Str} {a : Atom} {rest : Str}
    (h : chopAtom s = some (a, rest)) : rest.length < s.length := by
  cases s with
  | nil => simp [chopAtom] at h
  | cons c s2 =>
    simp only [chopAtom] at h
    by_cases h1 : c = '\\'
    · rw [if_pos h1] at h
      cases s2 with
      | nil => simp at h
      | cons d rest2 =>
        simp at h
        simp [← h.2]
        omega
    · rw [if_neg h1] at h
      by_cases h2 : c = '['
      · rw [if_pos h2] at h
        split at h
        · simp at h
          simp [← h.2]
          omega
        · simp at h
      · rw [if_neg h2] at h
        by_cases h3 : c = '.'
        · rw [if_pos h3] at h
          simp at h
          simp [← h.2]
        · rw [if_neg h3] at h
          by_cases h4 : isMeta c
          · rw [if_pos h4] at h; simp at h
          · rw [if_neg h4] at h
            simp at h
            simp [← h.2]

theorem parseAtomsF_fuel : ∀ f1 f2 : Nat, ∀ s : Str, s.length ≤ f1 → s.length ≤ f2 →
    parseAtomsF f1 s = parseAtomsF f2 s
  | f1, f2, [], _, _ => by cases f1 <;> cases f2 <;> rfl
  | 0, f2, c :: s2, h1, _ => by simp at h1
  | f1 + 1, 0, c :: s2, _, h2 => by simp at h2
  | f1 + 1, f2 + 1, c :: s2, h1, h2 => by
    simp only [parseAtomsF]
    rcases hchop : chopAtom (c :: s2) with _ | ⟨a, rest⟩
    · rfl
    · have hlen := chopAtom_length hchop
      simp only [List.length_cons] at h1 h2 hlen
      cases rest with
      | nil => simp [parseAtomsF_fuel f1 f2 [] (by omega) (by omega)]
      | cons e rest2 =>
        by_cases he : e = '*'
        · subst he
          have : rest2.length ≤ f1 ∧ rest2.length ≤ f2 := by
            simp at hlen; omega
          simp [parseAtomsF_fuel f1 f2 rest2 this.1 this.2]
        · have hl : (e :: rest2).length ≤ f1 ∧ (e :: rest2).length ≤ f2 := by
            simp at hlen ⊢; omega
          have hrec := parseAtomsF_fuel f1 f2 (e :: rest2) hl.1 hl.2
          cases e
          simp_all [parseAtomsF]

theorem parseAtomsF_nil : ∀ f : Nat, parseAtomsF f [] = some [] := by
  intro f; cases f <;> rfl

theorem parseAtoms_noStar {s : Str} {a : Atom} {rest : Str}
    (h : chopAtom s = some (a, rest)) (hs : ∀ e ∈ rest.head?, ¬(e = '*')) :
    parseAtoms s = (parseAtoms rest).map (fun l => (a, false) :: l) := by
  cases s with
  | nil => simp [chopAtom] at h
  | cons c s2 =>
    have hlen := chopAtom_length h
    simp only [List.length_cons] at hlen
    unfold parseAtoms
    simp only [List.length_cons, parseAtomsF, h]
    cases rest with
    | nil => simp [parseAtomsF_nil]
    | cons e rest2 =>
      have he : ¬(e = '*') := hs e (by simp)
      simp only [List.length_cons] at hlen ⊢
      split
      · exfalso
        rename_i heq
        simp only [List.cons.injEq] at heq
        exact he heq.1
      · rw [parseAtomsF_fuel s2.length (rest2.length + 1) (e :: rest2) (by simp; omega) (by simp)]

theorem parseAtoms_star {s : Str} {a : Atom} {rest2 : Str}
    (h : chopAtom s = some (a, '*' :: rest2)) :
    parseAtoms s = (parseAtoms rest2).map (fun l => (a, true) :: l) := by
  cases s with
  | nil => simp [chopAtom] at h
  | cons c s2 =>
    have hlen := chopAtom_length h
    simp only [List.length_cons] at hlen
    unfold parseAtoms
    simp only [List.length_cons, parseAtomsF, h]
    rw [parseAtomsF_fuel s2.length rest2.length rest2 (by omega) (by omega)]

theorem escDots_chars : ∀ s : Str, ∀ c ∈ escDots s, c ∈ s ∨ c = '\\' ∨ c = '.'
  | [], c, hc => by simp [escDots] at hc
  | c0 :: rest, c, hc => by
    by_cases h0 : c0 = '.'
    · subst h0
      simp [escDots] at hc
      rcases hc with h | h | h
      · right; left; exact h
      · right; right; exact h
      · rcases escDots_chars rest c h with h2 | h2 | h2
        · left; exact List.mem_cons_of_mem _ h2
        · right; left; exact h2
        · right; right; exact h2
    · simp [escDots, h0] at hc
      rcases hc with h | h
      · left; simp [h]
      · rcases escDots_chars rest c h with h2 | h2 | h2
        · left; exact List.mem_cons_of_mem _ h2
        · right; left; exact h2
        · right; right; exact h2

theorem replDStar_id : ∀ s : Str, (∀ c ∈ s, ¬(c = '*')) → replDStar s = s
  | [], _ => rfl
  | [c], _ => rfl
  | c :: d :: rest, h => by
    have hc : ¬(c = '*') := h c (by simp)
    simp only [replDStar, if_neg (fun hand : c = '*' ∧ d = '*' => hc hand.1)]
    rw [replDStar_id (d :: rest) (fun x hx => h x (List.mem_cons_of_mem c hx))]

theorem replStar_id : ∀ s : Str, (∀ c ∈ s, ¬(c = '*')) → replStar s = s
  | [], _ => rfl
  | c :: rest, h => by
    simp only [replStar, if_neg (h c (by simp))]
    rw [replStar_id rest (fun x hx => h x (List.mem_cons_of_mem c hx))]

theorem replQ_id : ∀ s : Str, (∀ c ∈ s, ¬(c = '?')) → replQ s = s
  | [], _ => rfl
  | c :: rest, h => by
    simp only [replQ, if_neg (h c (by simp))]
    rw [replQ_id rest (fun x hx => h x (List.mem_cons_of_mem c hx))]

/-- For a pattern whose characters are either `.` or non-metacharacters, the
compile chain only escapes the dots. -/
theorem compilePattern_plain (pat : Str) (h : ∀ c ∈ pat, c = '.' ∨ isMeta c = false) :
    compilePattern pat = escDots pat := by
  have hstar : ∀ c ∈ escDots pat, ¬(c = '*') := by
    intro c hc
    rcases escDots_chars pat c hc with h2 | h2 | h2
    · rcases h c h2 with h3 | h3
      · subst h3; intro hcon; cases hcon
      · intro hcon; subst hcon; simp [isMeta] at h3
    · subst h2; intro hcon; cases hcon
    · subst h2; intro hcon; cases hcon
  have hq : ∀ c ∈ escDots pat, ¬(c = '?') := by
    intro c hc
    rcases escDots_chars pat c hc with h2 | h2 | h2
    · rcases h c h2 with h3 | h3
      · subst h3; intro hcon; cases hcon
      · intro hcon; subst hcon; simp [isMeta] at h3
    · subst h2; intro hcon; cases hcon
    · subst h2; intro hcon; cases hcon
  unfold compilePattern
  rw [replDStar_id _ hstar, replStar_id _ hstar, replQ_id _ hq]

theorem parseAtoms_escDots : ∀ pat : Str, (∀ c ∈ pat, c = '.' ∨ isMeta c = false) →
    parseAtoms (escDots pat) = some (pat.map (fun c => (Atom.lit c, false)))
  | [], _ => rfl
  | c :: rest, h => by
    have hrest : ∀ x ∈ rest, x = '.' ∨ isMeta x = false :=
      fun x hx => h x (List.mem_cons_of_mem c hx)
    have hstar : ∀ e ∈ (escDots rest).head?, ¬(e = '*') := by
      intro e he
      have hmem : e ∈ escDots rest := by
        cases hh : escDots rest with
        | nil => simp [hh] at he
        | cons y ys =>
          simp [hh] at he
          simp [hh, he]
      rcases escDots_chars rest e hmem with h2 | h2 | h2
      · rcases hrest e h2 with h3 | h3
        · subst h3; intro hcon; cases hcon
        · intro hcon; subst hcon; simp [isMeta] at h3
      · subst h2; intro hcon; cases hcon
      · subst h2; intro hcon; cases hcon
    by_cases hc : c = '.'
    · subst hc
      have hesc : escDots ('.' :: rest) = '\\' :: '.' :: escDots rest := by simp [escDots]
      rw [hesc]
      have hchop : chopAtom ('\\' :: '.' :: escDots rest) = some (Atom.lit '.', escDots rest) := by
        simp [chopAtom]
      rw [parseAtoms_noStar hchop hstar, parseAtoms_escDots rest hrest]
      simp
    · have hmeta : isMeta c = false := (h c (by simp)).resolve_left hc
      have hesc : escDots (c :: rest) = c :: escDots rest := by simp [escDots, hc]
      rw [hesc]
      have hc1 : ¬(c = '\\') := by intro hh; subst hh; simp [isMeta] at hmeta
      have hc2 : ¬(c = '[') := by intro hh; subst hh; simp [isMeta] at hmeta
      have hchop : chopAtom (c :: escDots rest) = some (Atom.lit c, escDots rest) := by
        simp [chopAtom, hc1, hc2, hc, hmeta]
      rw [parseAtoms_noStar hchop hstar, parseAtoms_escDots rest hrest]
      simp

theorem matchesFilePattern_one (path pat : Str) :
    matchesFilePattern path (some [pat]) =
      (match parseAtoms (compilePattern pat) with
       | some items => matchItems items path
       | none => false) := by
  simp [matchesFilePattern]

/-- C4 counterexample: the claim says `**` matches any sequence, including
across `/` separators, so the path `a/b` should match the pattern `**` and
`src/utils/helper.ts` should match `**/*.ts`; the code rejects both, because
the chained replacements turn `**` into `.[^/]*` (one arbitrary character
followed by a run of non-separators), not `.*`. -/
theorem c4_counterexample :
    matchesFilePattern (strL "a/b") (some [strL "**"]) = false ∧
    matchesFilePattern (strL "src/utils/helper.ts") (some [strL "**/*.ts"]) = false :=
  ⟨by decide, by decide⟩

/-- C4 (amended): in `matchesFilePattern`, `*` matches any run of
non-separator characters; `?` matches exactly one character (any but a line
terminator); a pattern of literal characters — dots included — matches
exactly itself, so a literal `.` matches only a dot and matching is anchored
to the whole path; but `**` compiles to `.[^/]*` and therefore matches one
arbitrary character (separator included, line terminators excluded) followed
by a run of non-separator characters — not an arbitrary sequence across
separators. -/
theorem c4_amended :
    (∀ path : Str, matchesFilePattern path (some [strL "*"]) = path.all (fun c => !(c == '/'))) ∧
    (∀ path : Str, matchesFilePattern path (some [strL "**"]) =
      (match path with
       | [] => false
       | c :: rest => !(isLineTerm c) && rest.all (fun c => !(c == '/')))) ∧
    (∀ path : Str, matchesFilePattern path (some [strL "?"]) =
      (match path with
       | [c] => !(isLineTerm c)
       | _ => false)) ∧
    (∀ pat path : Str, (∀ c ∈ pat, c = '.' ∨ isMeta c = false) →
      (matchesFilePattern path (some [pat]) = true ↔ path = pat)) := by
  refine ⟨fun path => ?_, fun path => ?_, fun path => ?_, fun pat path h => ?_⟩
  · rw [matchesFilePattern_one]
    have hp : parseAtoms (compilePattern (strL "*")) = some [(Atom.notSlash, true)] := by decide
    rw [hp]
    exact matchItems_notSlashStar path
  · rw [matchesFilePattern_one]
    have hp : parseAtoms (compilePattern (strL "**")) =
        some [(Atom.dot, false), (Atom.notSlash, true)] := by decide
    rw [hp]
    exact matchItems_dotNotSlashStar path
  · rw [matchesFilePattern_one]
    have hp : parseAtoms (compilePattern (strL "?")) = some [(Atom.dot, false)] := by decide
    rw [hp]
    exact matchItems_dotOnce path
  · rw [matchesFilePattern_one, compilePattern_plain pat h, parseAtoms_escDots pat h]
    exact matchItems_lits pat path

/-- Witness for the amended C4 theorem at concrete inputs. -/
theorem c4_amended_witness :
    matchesFilePattern (strL "a.b") (some [strL "a.b"]) = true ∧
    matchesFilePattern (strL "axb") (some [strL "a.b"]) = false ∧
    matchesFilePattern (strL "bab") (some [strL "ab"]) = false := by
  refine ⟨?_, ?_, ?_⟩
  · exact (c4_amended.2.2.2 (strL "a.b") (strL "a.b") (by decide)).mpr rfl
  · have h := c4_amended.2.2.2 (strL "a.b") (strL "axb") (by decide)
    have hne : ¬(strL "axb" = strL "a.b") := by decide
    cases hv : matchesFilePattern (strL "axb") (some [strL "a.b"]) with
    | false => rfl
    | true => exact absurd (h.mp hv) hne
  · have h := c4_amended.2.2.2 (strL "ab") (strL "bab") (by decide)
    have hne : ¬(strL "bab" = strL "ab") := by decide
    cases hv : matchesFilePattern (strL "bab") (some [strL "ab"]) with
    | false => rfl
    | true => exact absurd (h.mp hv) hne

theorem lastOr_or : ∀ (l : Str) (prev : Option Char), lastOr prev l = Option.or l.getLast? prev
  | [], prev => rfl
  | c :: rest, prev => by
    have h1 : lastOr prev (c :: rest) = lastOr (some c) rest := rfl
    rw [h1, lastOr_or rest (some c)]
    cases rest with
    | nil => simp
    | cons d rest2 =>
      rw [List.getLast?_cons_cons]
      rcases ho : (d :: rest2).getLast? with _ | x
      · simp at ho
      · simp [Option.or]

theorem hitAt_iff {kw : Str} (hk : kw ≠ []) (prev : Option Char) (s : Str) :
    hitAt kw prev s = true ↔
      ∃ post, s = kw ++ post ∧ bdryB prev kw.head? = true ∧
        bdryB kw.getLast? post.head? = true := by
  obtain ⟨k0, ktl, rfl⟩ := List.exists_cons_of_ne_nil hk
  constructor
  · intro h
    simp only [hitAt, Bool.and_eq_true] at h
    obtain ⟨⟨hpre, hb1⟩, hb2⟩ := h
    obtain ⟨post, hpost⟩ := List.isPrefixOf_iff_prefix.mp hpre
    refine ⟨post, hpost.symm, ?_, ?_⟩
    · rw [← hpost] at hb1
      simpa using hb1
    · rw [← hpost] at hb2
      rw [List.take_left (k0 :: ktl) post, List.drop_left (k0 :: ktl) post] at hb2
      exact hb2
  · rintro ⟨post, rfl, hb1, hb2⟩
    simp only [hitAt, Bool.and_eq_true]
    refine ⟨⟨?_, ?_⟩, ?_⟩
    · exact List.isPrefixOf_iff_prefix.mpr ⟨post, rfl⟩
    · simpa using hb1
    · rw [List.take_left (k0 :: ktl) post, List.drop_left (k0 :: ktl) post]
      exact hb2

theorem scanWord_iff {kw : Str} (hk : kw ≠ []) :
    ∀ (s : Str) (prev : Option Char), scanWord kw prev s = true ↔ occursAux kw prev s
  | [], prev => by
    have h1 : scanWord kw prev [] = hitAt kw prev [] := rfl
    rw [h1, hitAt_iff hk]
    constructor
    · rintro ⟨post, hpost, _, _⟩
      exact absurd hpost.symm (by simp [hk])
    · rintro ⟨pre, post, hpost, _, _⟩
      exfalso
      have := hpost.symm
      rw [List.append_assoc] at this
      rcases List.append_eq_nil.mp this with ⟨_, h2⟩
      rcases List.append_eq_nil.mp h2 with ⟨h3, _⟩
      exact hk h3
  | c :: rest, prev => by
    have h1 : scanWord kw prev (c :: rest) =
        (hitAt kw prev (c :: rest) || scanWord kw (some c) rest) := rfl
    rw [h1, Bool.or_eq_true, hitAt_iff hk, scanWord_iff hk rest (some c)]
    constructor
    · rintro (⟨post, hpost, hb1, hb2⟩ | ⟨pre, post, hpost, hb1, hb2⟩)
      · exact ⟨[], post, by simpa using hpost, by simpa [lastOr] using hb1, hb2⟩
      · exact ⟨c :: pre, post, by simpa using hpost, by simpa [lastOr] using hb1, hb2⟩
    · rintro ⟨pre, post, hpost, hb1, hb2⟩
      cases pre with
      | nil =>
        left
        exact ⟨post, by simpa using hpost, by simpa [lastOr] using hb1, hb2⟩
      | cons c2 pre2 =>
        right
        have hc2 : c2 = c := by
          have := congrArg List.head? hpost
          simpa using this.symm
        subst hc2
        refine ⟨pre2, post, ?_, by simpa [lastOr] using hb1, hb2⟩
        have := hpost
        simp only [List.cons_append] at this
        exact (List.cons.injEq .. ▸ this).2

theorem scanWord_iff_occurs {kw : Str} (hk : kw ≠ []) (s : Str) :
    scanWord kw none s = true ↔ occursWholeWord kw s := by
  rw [scanWord_iff hk s none]
  unfold occursAux occursWholeWord
  constructor
  · rintro ⟨pre, post, hpost, hb1, hb2⟩
    refine ⟨pre, post, hpost, ?_, hb2⟩
    rwa [lastOr_or, Option.or_none] at hb1
  · rintro ⟨pre, post, hpost, hb1, hb2⟩
    refine ⟨pre, post, hpost, ?_, hb2⟩
    rwa [lastOr_or, Option.or_none]

/-- C3 counterexample: the TypeScript keyword check cited by the claim
(`prompt.includes(kw.toLowerCase())`) matches keyword `api` against the
prompt `rapidly`, because it is plain substring containment with no word
boundaries — the claim says keyword `api` must not match an input containing
only `rapidly`. -/
theorem c3_counterexample :
    tsMatchedSkills (fun _ _ => false) (lowerL (strL "rapidly"))
      [(strL "docs", ⟨strL "suggest", some ⟨some [strL "api"], none⟩⟩)] =
    [⟨strL "docs", strL "keyword", ⟨strL "suggest", some ⟨some [strL "api"], none⟩⟩⟩] := by
  decide

/-- C3 (amended): the part_001 matcher `containsKeywords` behaves as the
claim states — an absent or empty keyword list never matches; the result is
the OR over the keywords; a (non-empty, literal) keyword hits iff it occurs
in the text case-insensitively on word boundaries; `api` matches `The API is
down` and not `rapidly growing`.  The keyword check of the TypeScript hook,
however, is case-insensitive substring containment (no word boundaries), so
there `api` does match inside `rapidly`. -/
theorem c3_amended :
    (∀ text : Str, containsKeywords text none = false) ∧
    (∀ text : Str, containsKeywords text (some []) = false) ∧
    (∀ (text : Str) (kws : List Str), containsKeywords text (some kws) = true ↔
      ∃ kw ∈ kws, scanWord (lowerL kw) none (lowerL text) = true) ∧
    (∀ (text : Str) (kws : List Str), (∀ kw ∈ kws, kw ≠ []) →
      (containsKeywords text (some kws) = true ↔
        ∃ kw ∈ kws, occursWholeWord (lowerL kw) (lowerL text))) ∧
    (containsKeywords (strL "The API is down") (some [strL "api"]) = true) ∧
    (containsKeywords (strL "rapidly growing") (some [strL "api"]) = false) ∧
    (∀ (prompt : Str) (kws : List Str), tsKeywordHit prompt kws = true ↔
      ∃ kw ∈ kws, isSubstr (lowerL kw) prompt = true) ∧
    (tsKeywordHit (lowerL (strL "rapidly")) [strL "api"] = true) := by
  have hany : ∀ (text : Str) (kws : List Str), containsKeywords text (some kws) = true ↔
      ∃ kw ∈ kws, scanWord (lowerL kw) none (lowerL text) = true := by
    intro text kws
    cases kws with
    | nil => simp [containsKeywords]
    | cons k ks => simp [containsKeywords, List.any_eq_true]
  refine ⟨fun text => rfl, fun text => rfl, hany, ?_, by decide, by decide, ?_, by decide⟩
  · intro text kws hne
    rw [hany text kws]
    constructor
    · rintro ⟨kw, hmem, hscan⟩
      have hkw : lowerL kw ≠ [] := by
        intro hnil
        exact hne kw hmem (by simpa [lowerL] using hnil)
      exact ⟨kw, hmem, (scanWord_iff_occurs hkw (lowerL text)).mp hscan⟩
    · rintro ⟨kw, hmem, hocc⟩
      have hkw : lowerL kw ≠ [] := by
        intro hnil
        exact hne kw hmem (by simpa [lowerL] using hnil)
      exact ⟨kw, hmem, (scanWord_iff_occurs hkw (lowerL text)).mpr hocc⟩
  · intro prompt kws
    simp [tsKeywordHit, List.any_eq_true]

/-- Witness for the amended C3 theorem at a concrete input. -/
theorem c3_amended_witness :
    ∃ kw ∈ [strL "api"], occursWholeWord (lowerL kw) (lowerL (strL "The API is down")) :=
  (c3_amended.2.2.2.1 (strL "The API is down") [strL "api"] (by decide)).mp (by decide)

theorem kwsOf_setExclude (skill : Skill) (eps : Option (List Str)) :
    kwsOf (setExclude skill eps) = kwsOf skill := by
  cases h : skill.triggers <;> simp [kwsOf, setExclude, h]

theorem intsOf_setExclude (skill : Skill) (eps : Option (List Str)) :
    intsOf (setExclude skill eps) = intsOf skill := by
  cases h : skill.triggers <;> simp [intsOf, setExclude, h]

theorem fpsOf_setExclude (skill : Skill) (eps : Option (List Str)) :
    fpsOf (setExclude skill eps) = fpsOf skill := by
  cases h : skill.triggers <;> simp [fpsOf, setExclude, h]

theorem matchesFilePattern_none (file : Str) : matchesFilePattern file none = false := rfl

/-- The common no-file-contribution evaluation of `ruleScore`: when the
context is empty, or the rule has no `filePatterns`, or no context file
matches them, the result is exactly the keyword and intent contributions. -/
theorem ruleScore_noFile (skill : Skill) (prompt : Str) (ctx : List Str)
    (h : ctx = [] ∨ fpsOf skill = none ∨ ∀ f ∈ ctx, matchesFilePattern f (fpsOf skill) = false) :
    ruleScore skill prompt ctx =
      ((if kwHitB skill prompt then 2 else 0) + (if intentHitB skill prompt then 3 else 0),
       (if kwHitB skill prompt then [kwReason] else []) ++
       (if intentHitB skill prompt then [intReason] else [])) := by
  rcases hf : fpsOf skill with _ | fps
  · simp [ruleScore, hf, kwHitB, intentHitB]
  · rcases h with h | h | h
    · subst h
      simp [ruleScore, hf, kwHitB, intentHitB]
    · rw [hf] at h; cases h
    · rw [hf] at h
      have hmatch : ctx.filter (fun file => matchesFilePattern file (some fps)) = [] :=
        List.filter_eq_nil_iff.mpr (fun f hp => by simp [h f hp])
      by_cases hctx : ctx.length > 0
      · simp [ruleScore, hf, hctx, hmatch, kwHitB, intentHitB]
      · simp [ruleScore, hf, hctx, kwHitB, intentHitB]

/-- C5: absent the exclusion override, scoring is additive with fixed
weights: keyword +2 with reason `keyword match`, intent +3 with reason
`intent match`, file context +2 with reason `file context (N files)` where N
counts the matching context files; and the score is positive iff at least
one trigger hits. -/
theorem c5_additive_scoring (skill : Skill) (prompt : Str) (ctx : List Str)
    (h : exclusionFiresB skill ctx = false) :
    ruleScore skill prompt ctx =
      ((if kwHitB skill prompt then 2 else 0) + (if intentHitB skill prompt then 3 else 0) +
         (if fileHitB skill ctx then 2 else 0),
       (if kwHitB skill prompt then [kwReason] else []) ++
       (if intentHitB skill prompt then [intReason] else []) ++
       (if fileHitB skill ctx then [fileReason (matchingOf skill ctx).length] else [])) ∧
    ((ruleScore skill prompt ctx).1 > 0 ↔
      (kwHitB skill prompt = true ∨ intentHitB skill prompt = true ∨
        fileHitB skill ctx = true)) := by
  have main : ruleScore skill prompt ctx =
      ((if kwHitB skill prompt then 2 else 0) + (if intentHitB skill prompt then 3 else 0) +
         (if fileHitB skill ctx then 2 else 0),
       (if kwHitB skill prompt then [kwReason] else []) ++
       (if intentHitB skill prompt then [intReason] else []) ++
       (if fileHitB skill ctx then [fileReason (matchingOf skill ctx).length] else [])) := by
    rcases hf : fpsOf skill with _ | fps
    · have hm0 : matchingOf skill ctx = [] := by
        simp [matchingOf, hf, matchesFilePattern_none]
      have hfh : fileHitB skill ctx = false := by simp [fileHitB, hm0]
      rw [ruleScore_noFile skill prompt ctx (Or.inr (Or.inl hf)), hfh]
      simp
    · have hmOf : matchingOf skill ctx = ctx.filter (fun file => matchesFilePattern file (some fps)) := by
        simp [matchingOf, hf]
      by_cases hctx : ctx.length > 0
      · by_cases hmp : (ctx.filter (fun file => matchesFilePattern file (some fps))).length > 0
        · have hfh : fileHitB skill ctx = true := by
            simp only [fileHitB, hmOf]
            cases hcf : ctx.filter (fun file => matchesFilePattern file (some fps)) with
            | nil => rw [hcf] at hmp; simp at hmp
            | cons a l => simp
          rcases he : epsOf skill with _ | eps
          · simp only [ruleScore, hf, he, if_pos hctx, if_pos hmp]
            simp [hfh, hmOf, kwHitB, intentHitB]
          · have hno : ((ctx.filter (fun file => matchesFilePattern file (some fps))).filter
                (fun file => matchesFilePattern file (some eps))).length ≠
                (ctx.filter (fun file => matchesFilePattern file (some fps))).length := by
              intro heq
              rw [exclusionFiresB, he, hmOf] at h
              simp only [heq] at h
              cases hcf : ctx.filter (fun file => matchesFilePattern file (some fps)) with
              | nil => rw [hcf] at hmp; simp at hmp
              | cons a l => rw [hcf] at h; simp at h
            simp only [ruleScore, hf, he, if_pos hctx, if_pos hmp, if_neg hno]
            simp [hfh, hmOf, kwHitB, intentHitB]
        · have hfh : fileHitB skill ctx = false := by
            simp only [fileHitB, hmOf]
            cases hcf : ctx.filter (fun file => matchesFilePattern file (some fps)) with
            | nil => simp
            | cons a l => rw [hcf] at hmp; simp at hmp
          simp only [ruleScore, hf, if_pos hctx, if_neg hmp]
          simp [hfh, kwHitB, intentHitB]
      · have hc0 : ctx = [] := by
          cases ctx with
          | nil => rfl
          | cons a l => simp at hctx
        subst hc0
        have hfh : fileHitB skill [] = false := by simp [fileHitB, matchingOf]
        rw [ruleScore_noFile skill prompt [] (Or.inl rfl), hfh]
        simp
  refine ⟨main, ?_⟩
  rw [main]
  by_cases k : kwHitB skill prompt <;>
    by_cases i : intentHitB skill prompt <;>
      by_cases f : fileHitB skill ctx <;>
        simp [k, i, f]

/-- Witness for C5 at a concrete input: a keyword-only hit scores exactly 2
with reason `keyword match`. -/
theorem c5_additive_scoring_witness :
    ruleScore ⟨strL "frontend-dev-guidelines", strL "Frontend guidelines", strL "suggest",
        strL "high", some ⟨some [strL "react"], none, none, none⟩⟩
      (strL "Create a React component with MUI") [] =
      (2, [kwReason]) ∧
    (2 : Nat) > 0 := by
  have h := c5_additive_scoring
    ⟨strL "frontend-dev-guidelines", strL "Frontend guidelines", strL "suggest",
        strL "high", some ⟨some [strL "react"], none, none, none⟩⟩
    (strL "Create a React component with MUI") [] (by decide)
  refine ⟨?_, by decide⟩
  rw [h.1]
  decide

/-- C2: when at least one context file matches the `filePatterns` of a rule and
every matching file also matches an exclude pattern, the result of the rule is
exactly score 0 with the single reason `excluded by pattern`, regardless of
any keyword or intent hits accumulated earlier in the same pass. -/
theorem c2_exclusion_zeroes (skill : Skill) (prompt : Str) (ctx : List Str)
    (fps eps : List Str)
    (hf : fpsOf skill = some fps) (he : epsOf skill = some eps)
    (hm : ∃ f ∈ ctx, matchesFilePattern f (some fps) = true)
    (hall : ∀ f ∈ ctx, matchesFilePattern f (some fps) = true →
      matchesFilePattern f (some eps) = true) :
    ruleScore skill prompt ctx = (0, [exclReason]) := by
  obtain ⟨f0, hf0, hf0m⟩ := hm
  have hctx : ctx.length > 0 := List.length_pos.mpr (List.ne_nil_of_mem hf0)
  have hf0filter : f0 ∈ ctx.filter (fun file => matchesFilePattern file (some fps)) :=
    List.mem_filter.mpr ⟨hf0, hf0m⟩
  have hmp : (ctx.filter (fun file => matchesFilePattern file (some fps))).length > 0 :=
    List.length_pos.mpr (List.ne_nil_of_mem hf0filter)
  have hself : (ctx.filter (fun file => matchesFilePattern file (some fps))).filter
      (fun file => matchesFilePattern file (some eps)) =
      ctx.filter (fun file => matchesFilePattern file (some fps)) := by
    apply List.filter_eq_self.mpr
    intro a ha
    rcases List.mem_filter.mp ha with ⟨hactx, ham⟩
    exact hall a hactx ham
  simp only [ruleScore, hf, he, if_pos hctx, if_pos hmp, hself, if_pos rfl]
  simp

/-- Witness for C2: scenario 3 of the spec with a keyword hit layered on
top — `filePatterns: ["*.sql"]`, `excludePatterns: ["*_test.sql"]`, context
`["migrate_test.sql"]`, prompt hitting keyword `migrate`: score 0, reason
`excluded by pattern`. -/
theorem c2_exclusion_zeroes_witness :
    ruleScore ⟨strL "db", strL "Database skill", strL "suggest", strL "low",
        some ⟨some [strL "migrate"], none, some [strL "*.sql"], some [strL "*_test.sql"]⟩⟩
      (strL "migrate the db") [strL "migrate_test.sql"] = (0, [exclReason]) := by
  exact c2_exclusion_zeroes _ _ _ [strL "*.sql"] [strL "*_test.sql"] rfl rfl
    ⟨strL "migrate_test.sql", by decide⟩ (by decide)

theorem epsOf_setExclude (skill : Skill) (eps : Option (List Str)) :
    epsOf (setExclude skill eps) = (match skill.triggers with
      | none => none
      | some _ => eps) := by
  cases h : skill.triggers <;> simp [epsOf, setExclude, h]

/-- C9: the exclusion override is only reachable through a file-context
match: when the context is empty, or the rule has no `filePatterns`, or no
context file matches them, `excludePatterns` are never consulted — replacing
them changes nothing — and the score and reasons are exactly the keyword and
intent contributions. -/
theorem c9_exclusion_scope (skill : Skill) (prompt : Str) (ctx : List Str)
    (h : ctx = [] ∨ fpsOf skill = none ∨ ∀ f ∈ ctx, matchesFilePattern f (fpsOf skill) = false) :
    (∀ eps : Option (List Str),
      ruleScore (setExclude skill eps) prompt ctx = ruleScore skill prompt ctx) ∧
    (ruleScore skill prompt ctx).1 =
      (if kwHitB skill prompt then 2 else 0) + (if intentHitB skill prompt then 3 else 0) ∧
    (ruleScore skill prompt ctx).2 =
      (if kwHitB skill prompt then [kwReason] else []) ++
      (if intentHitB skill prompt then [intReason] else []) := by
  have h2 : ∀ eps : Option (List Str), ctx = [] ∨ fpsOf (setExclude skill eps) = none ∨
      ∀ f ∈ ctx, matchesFilePattern f (fpsOf (setExclude skill eps)) = false := by
    intro eps
    rw [fpsOf_setExclude]
    exact h
  have hkw : ∀ eps, kwHitB (setExclude skill eps) prompt = kwHitB skill prompt := by
    intro eps
    simp [kwHitB, kwsOf_setExclude]
  have hint : ∀ eps, intentHitB (setExclude skill eps) prompt = intentHitB skill prompt := by
    intro eps
    simp [intentHitB, intsOf_setExclude]
  refine ⟨fun eps => ?_, ?_, ?_⟩
  · rw [ruleScore_noFile _ _ _ (h2 eps), ruleScore_noFile _ _ _ h, hkw, hint]
  · rw [ruleScore_noFile _ _ _ h]
  · rw [ruleScore_noFile _ _ _ h]

/-- Witness for C9 at a concrete input: a keyword+intent rule with exclude
patterns but no matching context file keeps its full score 5, and replacing
the exclude patterns changes nothing. -/
theorem c9_exclusion_scope_witness :
    (ruleScore (setExclude ⟨strL "api", strL "API skill", strL "suggest", strL "low",
        some ⟨some [strL "api"], some [strL "the api"], some [strL "*.sql"], some [strL "*"]⟩⟩
        none)
      (strL "fix the api") [strL "notes.txt"] =
      ruleScore ⟨strL "api", strL "API skill", strL "suggest", strL "low",
        some ⟨some [strL "api"], some [strL "the api"], some [strL "*.sql"], some [strL "*"]⟩⟩
      (strL "fix the api") [strL "notes.txt"]) ∧
    (ruleScore ⟨strL "api", strL "API skill", strL "suggest", strL "low",
        some ⟨some [strL "api"], some [strL "the api"], some [strL "*.sql"], some [strL "*"]⟩⟩
      (strL "fix the api") [strL "notes.txt"]).1 = 5 := by
  have h := c9_exclusion_scope ⟨strL "api", strL "API skill", strL "suggest", strL "low",
      some ⟨some [strL "api"], some [strL "the api"], some [strL "*.sql"], some [strL "*"]⟩⟩
    (strL "fix the api") [strL "notes.txt"] (Or.inr (Or.inr (by decide)))
  refine ⟨h.1 none, ?_⟩
  rw [h.2.1]
  decide

theorem insertDesc_perm (x : Suggestion) : ∀ l : List Suggestion,
    List.Perm (insertDesc x l) (x :: l)
  | [] => List.Perm.refl _
  | y :: ys => by
    by_cases h : y.score > x.score
    · simp only [insertDesc, if_pos h]
      exact ((insertDesc_perm x ys).cons y).trans (List.Perm.swap x y ys)
    · simp only [insertDesc, if_neg h]
      exact List.Perm.refl _

theorem sortDesc_perm : ∀ l : List Suggestion, List.Perm (sortDesc l) l
  | [] => List.Perm.refl _
  | x :: xs => (insertDesc_perm x (sortDesc xs)).trans ((sortDesc_perm xs).cons x)

theorem buckets_eq (prompt : Str) (ctx : List Str) : ∀ skills : List Skill,
    buckets prompt ctx skills =
      ((matchedList prompt ctx skills).filter (fun r => !(r.mode == strL "block")),
       (matchedList prompt ctx skills).filter (fun r => r.mode == strL "block"))
  | [] => rfl
  | skill :: rest => by
    have ih := buckets_eq prompt ctx rest
    by_cases hs : (ruleScore skill prompt ctx).1 > 0
    · by_cases hb : skill.mode == strL "block"
      · simp [buckets, matchedList, List.filterMap_cons, hs, hb, ih, mkSuggestion,
          List.filter_cons]
      · simp [buckets, matchedList, List.filterMap_cons, hs, hb, ih, mkSuggestion,
          List.filter_cons]
    · simp [buckets, matchedList, List.filterMap_cons, hs, ih]

theorem length_filter_partition {α : Type} (p : α → Bool) : ∀ l : List α,
    (l.filter p).length + (l.filter (fun x => !(p x))).length = l.length
  | [] => rfl
  | x :: xs => by
    have ih := length_filter_partition p xs
    by_cases h : p x
    · simp [List.filter_cons, h, ih]
      omega
    · simp [List.filter_cons, h, ih]
      omega

theorem matchedList_length_le (prompt : Str) (ctx : List Str) (skills : List Skill) :
    (matchedList prompt ctx skills).length ≤ skills.length :=
  List.length_filterMap_le _ skills

theorem tsMatchedSkills_length (rt : Str → Str → Bool) (prompt : Str) :
    ∀ skills : List (Str × TsSkillRule),
      (tsMatchedSkills rt prompt skills).length ≤ skills.length
  | [] => Nat.le_refl 0
  | (nm, config) :: rest => by
    have ih := tsMatchedSkills_length rt prompt rest
    rcases htri : config.promptTriggers with _ | triggers
    · simp only [tsMatchedSkills, htri]
      simp
      omega
    · by_cases hkw : (match triggers.keywords with
        | some kws => tsKeywordHit prompt kws
        | none => false) = true
      · simp only [tsMatchedSkills, htri, hkw]
        simp
        omega
      · by_cases hint : (match triggers.intentPatterns with
          | some ps => ps.any fun pattern => rt pattern prompt
          | none => false) = true
        · simp only [tsMatchedSkills, htri]
          simp [hkw, hint]
          omega
        · simp only [tsMatchedSkills, htri]
          simp [hkw, hint]
          omega

/-- C10: each rule contributes at most one result, and the two buckets are a
disjoint partition of the matched rules: the blocking bucket is exactly the
matched rules with `mode == "block"` (in declaration order), the suggested
bucket is a permutation (the stable sort) of the matched rules with any other
mode, their sizes add up to the number of matched rules, which is at most the
number of rules.  The same bucket partition holds in the TypeScript hook. -/
theorem c10_buckets (skills : List Skill) (prompt : Str) (ctx : List Str)
    (rt : Str → Str → Bool) (tsSkills : List (Str × TsSkillRule)) (tsPrompt : Str) :
    (analyzePrompt skills prompt ctx).2 =
      (matchedList prompt ctx skills).filter (fun r => r.mode == strL "block") ∧
    List.Perm (analyzePrompt skills prompt ctx).1
      ((matchedList prompt ctx skills).filter (fun r => !(r.mode == strL "block"))) ∧
    (analyzePrompt skills prompt ctx).1.length + (analyzePrompt skills prompt ctx).2.length =
      (matchedList prompt ctx skills).length ∧
    (matchedList prompt ctx skills).length ≤ skills.length ∧
    ((tsMatchedSkills rt tsPrompt tsSkills).filter
        (fun s => s.config.enforcement == strL "block")).length +
      ((tsMatchedSkills rt tsPrompt tsSkills).filter
        (fun s => !(s.config.enforcement == strL "block"))).length =
      (tsMatchedSkills rt tsPrompt tsSkills).length ∧
    (tsMatchedSkills rt tsPrompt tsSkills).length ≤ tsSkills.length := by
  have hb := buckets_eq prompt ctx skills
  have h2 : (analyzePrompt skills prompt ctx).2 =
      (matchedList prompt ctx skills).filter (fun r => r.mode == strL "block") := by
    simp [analyzePrompt, hb]
  have h1 : List.Perm (analyzePrompt skills prompt ctx).1
      ((matchedList prompt ctx skills).filter (fun r => !(r.mode == strL "block"))) := by
    simp only [analyzePrompt, hb]
    exact sortDesc_perm _
  refine ⟨h2, h1, ?_, matchedList_length_le prompt ctx skills, ?_, tsMatchedSkills_length rt tsPrompt tsSkills⟩
  · have hp := length_filter_partition (fun r : Suggestion => r.mode == strL "block")
      (matchedList prompt ctx skills)
    rw [h1.length_eq, h2]
    omega
  · have hp := length_filter_partition (fun s : TsMatched => s.config.enforcement == strL "block")
      (tsMatchedSkills rt tsPrompt tsSkills)
    omega

set_option maxRecDepth 8000 in
/-- C1 (code bug): with four suggest-mode rules all matched (no blocking
match), the decision holds four suggestions, yet the hook prints nothing —
`formatMessage` renders the suggestion section only when
`suggestions.length <= 3`, making its `slice(0, 3)` dead code — while the
same prompt with only three matched rules does produce output.  The claim
(and the truncate-to-top-3 policy of the spec) says the top three by score should
still be surfaced. -/
theorem c1_truncation_bug :
    (analyzePrompt c1Rules4 c1Prompt []).1.length = 4 ∧
    (analyzePrompt c1Rules4 c1Prompt []).2 = [] ∧
    mainRun true (Except.ok ⟨some c1Rules4⟩) ⟨some c1Prompt, none, none⟩ = ⟨none, none, 0⟩ ∧
    (mainRun true (Except.ok ⟨some c1Rules3⟩) ⟨some c1Prompt, none, none⟩).output.isSome = true :=
  ⟨by decide, by decide, by decide, by decide⟩

/-- C6 counterexample: in the TypeScript hook, when neither candidate rules
location yields a readable, parseable file (the read of the chosen path
throws), the process logs the error and exits with status 1 — it does not
fall back to an empty rule collection and an empty Decision with success, as
the claim states. -/
theorem c6_counterexample :
    tsMain (fun _ _ => false) (Except.ok (some (strL "hello")))
      ⟨false, false, fun _ => Except.error (strL "ENOENT: no such file or directory")⟩ =
      ⟨none, some (strL "Error in skill-activation-prompt hook: " ++
        strL "ENOENT: no such file or directory"), 1⟩ := rfl

/-- C6 (amended): in the part_001 hook the loader consults a single candidate
location and fails soft — a missing file or a parse failure yields the empty
rule collection, the Decision is empty, nothing is printed and the process
exits 0 (a parse failure is only logged to stderr).  In the TypeScript hook,
which does consult two candidate locations, a failed read/parse of the
chosen file instead exits with status 1. -/
theorem c6_amended :
    (∀ (parsed : Except Str SkillRulesFile) (prompt : Str) (ctx : List Str),
      analyzePromptLoaded false parsed prompt ctx = ([], [])) ∧
    (∀ (e : Str) (fe : Bool) (prompt : Str) (ctx : List Str),
      analyzePromptLoaded fe (Except.error e) prompt ctx = ([], [])) ∧
    (∀ (parsed : Except Str SkillRulesFile) (input : HookInput),
      mainRun false parsed input = ⟨none, none, 0⟩) ∧
    (∀ (e : Str) (input : HookInput),
      (mainRun true (Except.error e) input).output = none ∧
      (mainRun true (Except.error e) input).exit = 0) ∧
    (∀ (rt : Str → Str → Bool) (prompt : Str) (pds pfe : Bool) (e : Str),
      tsMain rt (Except.ok (some prompt)) ⟨pds, pfe, fun _ => Except.error e⟩ =
        ⟨none, some (strL "Error in skill-activation-prompt hook: " ++ e), 1⟩) := by
  refine ⟨fun _ _ _ => rfl, fun e fe prompt ctx => ?_,
    fun parsed input => ?_, fun e input => ?_, fun _ _ _ _ _ => rfl⟩
  · cases fe <;> rfl
  · rcases input with ⟨p, files, cf⟩
    rcases p with _ | q
    · rfl
    · rcases q with _ | ⟨c, cs⟩ <;> rfl
  · rcases input with ⟨p, files, cf⟩
    rcases p with _ | q
    · exact ⟨rfl, rfl⟩
    · rcases q with _ | ⟨c, cs⟩
      · exact ⟨rfl, rfl⟩
      · exact ⟨rfl, rfl⟩

/-- C7 counterexample: in the TypeScript hook an absent prompt does not
short-circuit to a silent success — `data.prompt.toLowerCase()` throws and
the catch handler exits with status 1. -/
theorem c7_counterexample :
    (tsMain (fun _ _ => false) (Except.ok none)
      ⟨false, false, fun _ => Except.ok ⟨[]⟩⟩).exit = 1 := rfl

/-- C7 (amended): in the part_001 hook an absent or empty prompt
short-circuits before any matching runs — the result is no output, no log
and exit 0, independent of the rule file (which is not even loaded).  In the
TypeScript hook an absent prompt instead raises a TypeError that the outer
handler logs before exiting 1. -/
theorem c7_amended :
    (∀ (fe : Bool) (parsed : Except Str SkillRulesFile) (files cf : Option (List Str)),
      mainRun fe parsed ⟨none, files, cf⟩ = ⟨none, none, 0⟩) ∧
    (∀ (fe : Bool) (parsed : Except Str SkillRulesFile) (files cf : Option (List Str)),
      mainRun fe parsed ⟨some [], files, cf⟩ = ⟨none, none, 0⟩) ∧
    (∀ (rt : Str → Str → Bool) (fs : TsFs),
      tsMain rt (Except.ok none) fs =
        ⟨none, some (strL "Error in skill-activation-prompt hook: " ++
          strL "TypeError: data.prompt is undefined"), 1⟩) :=
  ⟨fun _ _ _ _ => rfl, fun _ _ _ _ => rfl, fun _ _ => rfl⟩

/-- C8 counterexample: in the TypeScript hook a caught exception terminates
the invocation with exit status 1, not the success status the claim
requires. -/
theorem c8_counterexample :
    (tsMain (fun _ _ => false) (Except.error (strL "boom"))
      ⟨false, false, fun _ => Except.ok ⟨[]⟩⟩).exit = 1 := rfl

/-- C8 (amended): the outermost boundary of the part_001 hook returns a successful
run unchanged and maps any thrown error to a stderr log (`Hook error: ...`)
with no stdout output and exit status **0**; the boundary of the TypeScript hook
also catches and logs any thrown error, but exits with status **1**. -/
theorem c8_amended :
    (∀ m : MainResult, mainBoundary (Except.ok m) = m) ∧
    (∀ e : Str, mainBoundary (Except.error e) =
      ⟨none, some (strL "Hook error: " ++ e), 0⟩) ∧
    (∀ (rt : Str → Str → Bool) (fs : TsFs) (e : Str),
      tsMain rt (Except.error e) fs =
        ⟨none, some (strL "Error in skill-activation-prompt hook: " ++ e), 1⟩) :=
  ⟨fun _ => rfl, fun _ => rfl, fun _ _ _ => rfl⟩

/-! Sanity checks of the embedded matchers on concrete inputs. -/

example : matchesFilePattern (strL "migrate_test.sql") (some [strL "*.sql"]) = true := by decide
example : matchesFilePattern (strL "a/b.sql") (some [strL "*.sql"]) = false := by decide
example : matchesFilePattern (strL "a/b") (some [strL "**"]) = false := by decide
example : matchesFilePattern (strL "ab") (some [strL "**"]) = true := by decide
example : matchesFilePattern (strL "src/utils/helper.ts") (some [strL "**/*.ts"]) = false := by decide
example : matchesFilePattern (strL "a/b.ts") (some [strL "**/*.ts"]) = true := by decide
example : containsKeywords (strL "The API is down") (some [strL "api"]) = true := by decide
example : containsKeywords (strL "rapidly growing") (some [strL "api"]) = false := by decide
example : containsKeywords (strL "rapidly api") (some [strL "api"]) = true := by decide
example : matchesIntent (strL "please DELETE the db") (some [strL "delete the"]) = true := by decide
example : tsKeywordHit (lowerL (strL "rapidly")) [strL "api"] = true := by decide
